import Mathlib

/-!
Shallow embedding of the TypeScript backtracking parser-combinator
library in `src/parser.ts`: a memoizing rewindable iterator
(`copyableIterator`) and a parser-state algebra (`recognize`,
`accept`, `chain`, `choice`, `option`, `many`, `repeat`, `run`).

Modelling choices, read off the source:

* The underlying token source is a finite list.  A `copyableIterator`
  cursor is modelled by the shared iterator state (`IterState`: the
  not-yet-pulled remainder of the source plus the append-only buffer
  of already pulled results) together with the cursor's read index;
  `copy()` duplicates only the index, sharing the state.

* At the parser level the memoizing buffer is observationally the
  input list itself (reads at position `i` deterministically yield the
  i-th source element, see `readN_mkIter`), so a parser state is
  abstracted as the input list plus the cursor index.  A TS parser
  `Parser<T,U> = (p: ParserState<T>) => U`, executed against the
  mutable cursor and raising string-list failures via `throw`, becomes
  a function `List T → Nat → Except (List String) A × Nat`: the
  returned `Nat` is the cursor position after the call — on failure as
  well, since the TS code advances its cursor before throwing.

* The body of `run` performs speculative double evaluation:
  `parser(createParser(state.copy))` for validation — whose cursor
  movement is invisible to the caller — and, if that does not throw,
  `parser(_this)` for commit.  Both are kept in the embedding.

* `many`/`repeat` recurse with no termination guarantee in TS (an
  always-succeeding, non-consuming parser loops forever); the
  embedding adds an explicit fuel parameter, with the fuel-exhaustion
  branch failing with a marker message.  `repeat` is a reserved word
  in Lean, hence the name `repeatP`.
-/

set_option maxRecDepth 4000

deriving instance DecidableEq for Except

namespace PC

/-- The type of an embedded parser over tokens `T` producing `A`:
input list and cursor position in, `Except` outcome and the position
after the attempt out. -/
def Parser (T A : Type) : Type :=
  List T → Nat → Except (List String) A × Nat

/-- The options record of `run` in `parser.ts`.  The TS runtime
dispatch checks the keys in the order `bindError`, `withDefault`,
`replaceErrors`, `withErrors`, `withError`, so the record keeps one
optional field per key; absent keys are `none`. -/
structure RunOptions (T A : Type) : Type where
  bindError : Option (List String → Parser T A)
  withDefault : Option A
  replaceErrors : Option (List String)
  withErrors : Option (List String)
  withError : Option String

/-- Options value carrying only `bindError`. -/
def optsBindError {T A : Type} (f : List String → Parser T A) :
    Option (RunOptions T A) :=
  some ⟨some f, none, none, none, none⟩

/-- Options value carrying only `withDefault`. -/
def optsWithDefault {T A : Type} (a : A) : Option (RunOptions T A) :=
  some ⟨none, some a, none, none, none⟩

/-- Options value carrying only `replaceErrors`. -/
def optsReplaceErrors {T A : Type} (es : List String) : Option (RunOptions T A) :=
  some ⟨none, none, some es, none, none⟩

/-- Options value carrying only `withErrors`. -/
def optsWithErrors {T A : Type} (es : List String) : Option (RunOptions T A) :=
  some ⟨none, none, none, some es, none⟩

/-- Options value carrying only `withError`. -/
def optsWithError {T A : Type} (e : String) : Option (RunOptions T A) :=
  some ⟨none, none, none, none, some e⟩

/-- The `catch` block of `run` in `parser.ts`: with no options the
failure is re-raised; otherwise `bindError` runs the handler's parser
against the caller's state, `withDefault` swallows the failure, and
otherwise the raised list is `replaceErrors` (else the caught
messages) with `withErrors` and then `withError` appended. -/
def handleFailure {T A : Type} (opts : Option (RunOptions T A))
    (errors : List String) : Parser T A :=
  fun inp pos =>
    match opts with
    | none => (.error errors, pos)
    | some o =>
      match o.bindError with
      | some f => f errors inp pos
      | none =>
        match o.withDefault with
        | some a => (.ok a, pos)
        | none =>
          let acc0 := match o.replaceErrors with
            | some r => r
            | none => errors
          let acc1 := match o.withErrors with
            | some es => acc0 ++ es
            | none => acc0
          let acc2 := match o.withError with
            | some e => acc1 ++ [e]
            | none => acc1
          (.error acc2, pos)

/-- Embeds `run` of `parser.ts`: first the validation evaluation
against a copied cursor (its resulting position is discarded, so a
caught failure leaves the caller's position untouched), then — only
when validation did not fail — the commit evaluation against the
caller's state. -/
def run {T A : Type} (p : Parser T A) (opts : Option (RunOptions T A)) :
    Parser T A :=
  fun inp pos =>
    match (p inp pos).1 with
    | .ok _ => p inp pos
    | .error e => handleFailure opts e inp pos

/-- Embeds `recognize` of `parser.ts`: pull one result from the
cursor (the TS cursor advances even when the pull fails or is past
the end), fail on end of input, fail naming the token when the
predicate rejects it, return it otherwise. -/
def recognize {T : Type} [ToString T] (pred : T → Bool) : Parser T T :=
  fun inp pos =>
    match inp[pos]? with
    | none => (.error ["Expected token, but reached end of input"], pos + 1)
    | some tok =>
      if pred tok then (.ok tok, pos + 1)
      else (.error ["Found " ++ toString tok], pos + 1)

/-- Embeds `accept` of `parser.ts`: `recognize` specialised to
equality, run with the `withError` strategy appending
`Expected <token>`. -/
def accept {T : Type} [ToString T] [DecidableEq T] (tok : T) : Parser T T :=
  run (recognize (fun x => decide (x = tok)))
    (optsWithError ("Expected " ++ toString tok))

/-- Embeds `chain` of `parser.ts`: `parsers.map((p) => run(p))` ran
against the one evolving state; a thrown failure aborts the `map`
immediately. -/
def chain {T A : Type} : List (Parser T A) → Parser T (List A)
  | [] => fun _ pos => (.ok [], pos)
  | p :: ps => fun inp pos =>
    match run p none inp pos with
    | (.ok a, pos1) =>
      (match chain ps inp pos1 with
       | (.ok as, pos2) => (.ok (a :: as), pos2)
       | (.error e, pos2) => (.error e, pos2))
    | (.error e, pos1) => (.error e, pos1)

/-- Embeds `choice` of `parser.ts`: zero alternatives throw `[]`;
otherwise the head alternative is run with a `bindError` handler that
runs the choice of the remaining alternatives with the head's failure
messages attached through `withErrors`. -/
def choice {T A : Type} : List (Parser T A) → Parser T A
  | [] => fun _ pos => (.error [], pos)
  | p :: rest =>
    run p (optsBindError fun errors =>
      run (choice rest) (optsWithErrors errors))

/-- Embeds `option` of `parser.ts`: the parser wrapped into a
singleton result, run with a `bindError` handler returning `[]`. -/
def option {T A : Type} (p : Parser T A) : Parser T (List A) :=
  run
    (fun inp pos =>
      match run p none inp pos with
      | (.ok a, pos1) => (.ok [a], pos1)
      | (.error e, pos1) => (.error e, pos1))
    (optsBindError fun _ => fun _ pos => (.ok [], pos))

/-- The `bindError` handler shared by `many` and the recursive call
inside `repeatP`: discard the failure and return `[]` at the caller's
position. -/
def bindNil {T A : Type} : Option (RunOptions T (List A)) :=
  optsBindError fun _ => fun _ pos => (.ok [], pos)

/-- Embeds `repeat` of `parser.ts` with explicit fuel: one mandatory
`run` of the parser, then the recursive `many` (inlined as
`run (repeatP n p) bindNil`, which is definitionally `many n p`) on
the rest, the results consed together. -/
def repeatP {T A : Type} : Nat → Parser T A → Parser T (List A)
  | 0, _ => fun _ pos => (.error ["repeatP: out of fuel"], pos)
  | n + 1, p => fun inp pos =>
    match run p none inp pos with
    | (.error e, pos1) => (.error e, pos1)
    | (.ok a, pos1) =>
      match run (repeatP n p) bindNil inp pos1 with
      | (.error e, pos2) => (.error e, pos2)
      | (.ok as, pos2) => (.ok (a :: as), pos2)

/-- Embeds `many` of `parser.ts`: `repeat` run with the `bindError`
handler returning `[]`. -/
def many {T A : Type} (n : Nat) (p : Parser T A) : Parser T (List A) :=
  run (repeatP n p) bindNil

/-- Shared state of one `copyableIterator`: the not-yet-pulled
remainder of the underlying source and the append-only buffer of
pulled results (`some tok`, or `none` for a pull past the end — the
TS code pushes the done-results into the buffer too). -/
structure IterState (T : Type) : Type where
  rest : List T
  buffer : List (Option T)
  deriving DecidableEq

/-- Models `next()` of a cursor at index `i`: replay the buffer entry
when the index is inside the buffer, otherwise pull from the
underlying source, append the result to the shared buffer, and in
either case advance the cursor by one. -/
def iterNext {T : Type} (st : IterState T) (i : Nat) :
    Option T × IterState T × Nat :=
  if h : i < st.buffer.length then
    (st.buffer.get ⟨i, h⟩, st, i + 1)
  else
    match st.rest with
    | [] => (none, ⟨[], st.buffer ++ [none]⟩, i + 1)
    | t :: ts => (some t, ⟨ts, st.buffer ++ [some t]⟩, i + 1)

/-- Models `copy()` of a cursor: a new cursor over the same shared
state whose start index is the copied cursor's current index
(`copy: () => _this(i)` in `parser.ts`). -/
def copyCursor (i : Nat) : Nat := i

/-- Reads `n` results in sequence through one cursor, returning the
observed results, the final shared state and the final index. -/
def readN {T : Type} : Nat → IterState T → Nat → List (Option T) × IterState T × Nat
  | 0, st, i => ([], st, i)
  | n + 1, st, i =>
    let r := iterNext st i
    let rs := readN n r.2.1 r.2.2
    (r.1 :: rs.1, rs.2.1, rs.2.2)

/-- A fresh `copyableIterator` over a source list: nothing pulled
yet, empty buffer. -/
def mkIter {T : Type} (inp : List T) : IterState T := ⟨inp, []⟩

/-- An operation on the shared stream: `next` on the cursor with a
given id, or `copy` of the cursor with a given id (the new cursor is
appended to the cursor table). -/
inductive StreamOp : Type where
  | next (c : Nat)
  | copy (c : Nat)
  deriving DecidableEq

/-- A system of concurrently live cursors over one shared iterator
state: the shared state plus the table of cursor indices. -/
structure Sys (T : Type) : Type where
  st : IterState T
  cursors : List Nat
  deriving DecidableEq

/-- Applies one stream operation; an operation naming a cursor id
outside the table is a no-op. -/
def applyOp {T : Type} (s : Sys T) : StreamOp → Sys T
  | .next c =>
    match s.cursors[c]? with
    | none => s
    | some i =>
      let r := iterNext s.st i
      ⟨r.2.1, s.cursors.set c r.2.2⟩
  | .copy c =>
    match s.cursors[c]? with
    | none => s
    | some i => ⟨s.st, s.cursors ++ [copyCursor i]⟩

/-- Applies a sequence of stream operations, left to right. -/
def applyOps {T : Type} (s : Sys T) (ops : List StreamOp) : Sys T :=
  ops.foldl applyOp s

/-- The sequence of results observed by reading `n` times through the
cursor with id `c` (nothing is observed under an invalid id). -/
def observe {T : Type} : Nat → Sys T → Nat → List (Option T)
  | 0, _, _ => []
  | n + 1, s, c =>
    match s.cursors[c]? with
    | none => []
    | some i =>
      let r := iterNext s.st i
      r.1 :: observe n ⟨r.2.1, s.cursors.set c r.2.2⟩ c

/-- Modelled from the spec's design note (§9): evaluate the parser
once, commit its result and resulting position on success, and on
failure dispatch the caught messages from the pre-attempt position.
Stated next to `run` for the redundancy comparison. -/
def runSingle {T A : Type} (p : Parser T A) (opts : Option (RunOptions T A)) :
    Parser T A :=
  fun inp pos =>
    match p inp pos with
    | (.ok a, pos') => (.ok a, pos')
    | (.error e, _) => handleFailure opts e inp pos

/-! Helper lemmas about `run` and `handleFailure`. -/

theorem run_of_ok {T A : Type} (p : Parser T A) (opts : Option (RunOptions T A))
    {inp : List T} {pos : Nat} {a : A} {pos' : Nat}
    (h : p inp pos = (.ok a, pos')) : run p opts inp pos = (.ok a, pos') := by
  simp [run, h]

theorem run_of_ok_fst {T A : Type} (p : Parser T A) (opts : Option (RunOptions T A))
    {inp : List T} {pos : Nat} {a : A}
    (h : (p inp pos).1 = .ok a) : run p opts inp pos = p inp pos := by
  simp [run, h]

theorem run_of_error {T A : Type} (p : Parser T A) (opts : Option (RunOptions T A))
    {inp : List T} {pos : Nat} {e : List String}
    (h : (p inp pos).1 = .error e) :
    run p opts inp pos = handleFailure opts e inp pos := by
  simp [run, h]

theorem handleFailure_none {T A : Type} (e : List String) (inp : List T) (pos : Nat) :
    handleFailure (none : Option (RunOptions T A)) e inp pos = (.error e, pos) := rfl

theorem handleFailure_bindError {T A : Type} (f : List String → Parser T A)
    (e : List String) (inp : List T) (pos : Nat) :
    handleFailure (optsBindError f) e inp pos = f e inp pos := rfl

theorem handleFailure_withDefault {T A : Type} (a : A)
    (e : List String) (inp : List T) (pos : Nat) :
    handleFailure (optsWithDefault a) e inp pos = (.ok a, pos) := rfl

theorem handleFailure_withErrors {T A : Type} (es : List String)
    (e : List String) (inp : List T) (pos : Nat) :
    handleFailure (optsWithErrors (A := A) es) e inp pos = (.error (e ++ es), pos) := rfl

theorem handleFailure_withError {T A : Type} (w : String)
    (e : List String) (inp : List T) (pos : Nat) :
    handleFailure (optsWithError (A := A) w) e inp pos = (.error (e ++ [w]), pos) := rfl

theorem handleFailure_bindNil {T A : Type} (e : List String) (inp : List T) (pos : Nat) :
    handleFailure (bindNil (A := A)) e inp pos = (.ok [], pos) := rfl

theorem run_none_of_error {T A : Type} (p : Parser T A)
    {inp : List T} {pos : Nat} {e : List String}
    (h : (p inp pos).1 = .error e) :
    run p none inp pos = (.error e, pos) := by
  rw [run_of_error p none h]; rfl

/-! Helper lemmas about the combinators. -/

theorem option_of_ok {T A : Type} (p : Parser T A)
    {inp : List T} {pos : Nat} {a : A} {pos1 : Nat}
    (h : p inp pos = (.ok a, pos1)) : option p inp pos = (.ok [a], pos1) := by
  have h1 : run p none inp pos = (.ok a, pos1) := run_of_ok p none h
  apply run_of_ok
  simp [h1]

theorem option_of_error {T A : Type} (p : Parser T A)
    {inp : List T} {pos : Nat} {e : List String}
    (h : (p inp pos).1 = .error e) : option p inp pos = (.ok [], pos) := by
  have h1 : run p none inp pos = (.error e, pos) := run_none_of_error p h
  unfold option
  rw [run_of_error (e := e) _ _ (by simp [h1])]
  rfl

theorem many_eq_run {T A : Type} (n : Nat) (p : Parser T A) :
    many n p = run (repeatP n p) bindNil := rfl

theorem repeatP_of_error {T A : Type} (p : Parser T A) (n : Nat)
    {inp : List T} {pos : Nat} {e : List String}
    (h : (p inp pos).1 = .error e) :
    repeatP (n + 1) p inp pos = (.error e, pos) := by
  have h1 : run p none inp pos = (.error e, pos) := run_none_of_error p h
  simp [repeatP, h1]

theorem repeatP_of_ok {T A : Type} (p : Parser T A) (n : Nat)
    {inp : List T} {pos : Nat} {a : A} {pos1 : Nat} {l : List A} {pos2 : Nat}
    (h : p inp pos = (.ok a, pos1)) (h2 : many n p inp pos1 = (.ok l, pos2)) :
    repeatP (n + 1) p inp pos = (.ok (a :: l), pos2) := by
  have h1 : run p none inp pos = (.ok a, pos1) := run_of_ok p none h
  have h2' : run (repeatP n p) bindNil inp pos1 = (.ok l, pos2) := h2
  simp [repeatP, h1, h2']

theorem many_isOk {T A : Type} (n : Nat) (p : Parser T A) (inp : List T) (pos : Nat) :
    ∃ l q, many n p inp pos = (.ok l, q) := by
  rw [many_eq_run]
  rcases hr : repeatP n p inp pos with ⟨r, q⟩
  cases r with
  | ok l =>
    exact ⟨l, q, run_of_ok _ bindNil hr⟩
  | error e =>
    refine ⟨[], pos, ?_⟩
    rw [run_of_error (e := e) _ bindNil (by simp [hr])]
    rfl

theorem many_of_error {T A : Type} (p : Parser T A) (n : Nat)
    {inp : List T} {pos : Nat} {e : List String}
    (h : (p inp pos).1 = .error e) : many n p inp pos = (.ok [], pos) := by
  rw [many_eq_run]
  cases n with
  | zero =>
    rw [run_of_error _ bindNil (e := ["repeatP: out of fuel"]) (by simp [repeatP])]
    rfl
  | succ n =>
    rw [run_of_error _ bindNil (e := e) (by simp [repeatP_of_error p n h])]
    rfl

theorem many_of_ok {T A : Type} (p : Parser T A) (n : Nat)
    {inp : List T} {pos : Nat} {a : A} {pos1 : Nat} {l : List A} {pos2 : Nat}
    (h : p inp pos = (.ok a, pos1)) (h2 : many n p inp pos1 = (.ok l, pos2)) :
    many (n + 1) p inp pos = (.ok (a :: l), pos2) := by
  rw [many_eq_run]
  exact run_of_ok _ bindNil (repeatP_of_ok p n h h2)

theorem choice_nil {T A : Type} (inp : List T) (pos : Nat) :
    choice ([] : List (Parser T A)) inp pos = (.error [], pos) := rfl

theorem choice_cons_of_ok {T A : Type} (p : Parser T A) (rest : List (Parser T A))
    {inp : List T} {pos : Nat} {a : A} {pos' : Nat}
    (h : p inp pos = (.ok a, pos')) :
    choice (p :: rest) inp pos = (.ok a, pos') := by
  simp only [choice]
  exact run_of_ok p _ h

theorem choice_cons_of_error {T A : Type} (p : Parser T A) (rest : List (Parser T A))
    {inp : List T} {pos : Nat} {e : List String}
    (h : (p inp pos).1 = .error e) :
    choice (p :: rest) inp pos = run (choice rest) (optsWithErrors e) inp pos := by
  simp only [choice]
  rw [run_of_error p _ h]
  rfl

theorem choice_error_pos {T A : Type} (ps : List (Parser T A))
    {inp : List T} {pos : Nat} {e : List String} {q : Nat}
    (h : choice ps inp pos = (.error e, q)) : q = pos := by
  cases ps with
  | nil =>
    rw [choice_nil] at h
    exact (congrArg Prod.snd h).symm
  | cons p rest =>
    rcases hp : (p inp pos).1 with e0 | a0
    · rw [choice_cons_of_error p rest hp] at h
      rcases hr : (choice rest inp pos).1 with e1 | a1
      · rw [run_of_error _ _ hr, handleFailure_withErrors] at h
        exact (congrArg Prod.snd h).symm
      · rw [run_of_ok_fst _ _ hr] at h
        rw [h] at hr
        simp at hr
    · rw [show choice (p :: rest) inp pos = run p _ inp pos from rfl,
        run_of_ok_fst p _ hp] at h
      rw [h] at hp
      simp at hp

theorem chain_nil {T A : Type} (inp : List T) (pos : Nat) :
    chain ([] : List (Parser T A)) inp pos = (.ok [], pos) := rfl

theorem chain_cons_of_ok {T A : Type} (p : Parser T A) (ps : List (Parser T A))
    {inp : List T} {pos : Nat} {a : A} {pos1 : Nat} {as : List A} {pos2 : Nat}
    (h : run p none inp pos = (.ok a, pos1))
    (h2 : chain ps inp pos1 = (.ok as, pos2)) :
    chain (p :: ps) inp pos = (.ok (a :: as), pos2) := by
  simp [chain, h, h2]

theorem chain_cons_of_error {T A : Type} (p : Parser T A) (ps : List (Parser T A))
    {inp : List T} {pos : Nat} {e : List String}
    (h : (p inp pos).1 = .error e) :
    chain (p :: ps) inp pos = (.error e, pos) := by
  simp [chain, run_none_of_error p h]

theorem chain_cons_of_rest_error {T A : Type} (p : Parser T A) (ps : List (Parser T A))
    {inp : List T} {pos : Nat} {a : A} {pos1 : Nat} {e : List String} {q : Nat}
    (h : run p none inp pos = (.ok a, pos1))
    (h2 : chain ps inp pos1 = (.error e, q)) :
    chain (p :: ps) inp pos = (.error e, q) := by
  simp [chain, h, h2]

/-! Helper lemmas about the memoizing rewindable stream. -/

theorem readN_add {T : Type} (m n : Nat) (st : IterState T) (i : Nat) :
    readN (m + n) st i =
      ((readN m st i).1 ++ (readN n (readN m st i).2.1 (readN m st i).2.2).1,
       (readN n (readN m st i).2.1 (readN m st i).2.2).2) := by
  induction m generalizing st i with
  | zero => simp [readN]
  | succ m ih =>
    rw [Nat.succ_add]
    simp only [readN]
    rw [ih]
    simp

theorem iterNext_buffer {T : Type} (st : IterState T) (i : Nat) :
    ∃ suf, (iterNext st i).2.1.buffer = st.buffer ++ suf := by
  unfold iterNext
  split
  · exact ⟨[], by simp⟩
  · split
    · exact ⟨[none], rfl⟩
    · exact ⟨[some _], rfl⟩

theorem applyOp_buffer {T : Type} (s : Sys T) (op : StreamOp) :
    ∃ suf, (applyOp s op).st.buffer = s.st.buffer ++ suf := by
  cases op with
  | next c =>
    unfold applyOp
    cases h : s.cursors[c]? with
    | none => exact ⟨[], by simp [h]⟩
    | some i => simpa [h] using iterNext_buffer s.st i
  | copy c =>
    unfold applyOp
    cases h : s.cursors[c]? with
    | none => exact ⟨[], by simp [h]⟩
    | some i => exact ⟨[], by simp [h]⟩

theorem applyOps_buffer {T : Type} (ops : List StreamOp) (s : Sys T) :
    ∃ suf, (applyOps s ops).st.buffer = s.st.buffer ++ suf := by
  induction ops generalizing s with
  | nil => exact ⟨[], by simp [applyOps]⟩
  | cons op ops ih =>
    obtain ⟨s1, h1⟩ := applyOp_buffer s op
    obtain ⟨s2, h2⟩ := ih (applyOp s op)
    refine ⟨s1 ++ s2, ?_⟩
    have : applyOps s (op :: ops) = applyOps (applyOp s op) ops := rfl
    rw [this, h2, h1, List.append_assoc]

theorem observe_eq_readN {T : Type} (n : Nat) (s : Sys T) (c : Nat) (i : Nat)
    (h : s.cursors[c]? = some i) :
    observe n s c = (readN n s.st i).1 := by
  induction n generalizing s i with
  | zero => simp [observe, readN]
  | succ n ih =>
    have hc : c < s.cursors.length := by
      rw [List.getElem?_eq_some] at h
      exact h.1
    simp only [observe, readN, h]
    congr 1
    exact ih ⟨(iterNext s.st i).2.1, s.cursors.set c (iterNext s.st i).2.2⟩
      (iterNext s.st i).2.2 (List.getElem?_set_self hc)

/-- The canonical shared state after `k` lockstep reads from a fresh
iterator over `inp`: the first `k` source elements (cut off at the end
of the source) are buffered as `some`, followed by one `none` for each
read past the end. -/
def canonical {T : Type} (inp : List T) (k : Nat) : IterState T :=
  ⟨inp.drop k, (inp.take k).map some ++ List.replicate (k - inp.length) none⟩

theorem canonical_buffer_length {T : Type} (inp : List T) (k : Nat) :
    (canonical inp k).buffer.length = k := by
  simp [canonical]
  omega

theorem iterNext_canonical {T : Type} (inp : List T) (k : Nat) :
    iterNext (canonical inp k) k = (inp[k]?, canonical inp (k + 1), k + 1) := by
  have hlen := canonical_buffer_length inp k
  unfold iterNext
  rw [dif_neg (by omega)]
  rcases hk : (canonical inp k).rest with _ | ⟨t, ts⟩
  · have hke : inp.length ≤ k := by
      simpa [canonical, List.drop_eq_nil_iff] using hk
    have hnone : inp[k]? = none := by
      simp [List.getElem?_eq_none hke]
    simp only [hnone, Prod.mk.injEq]
    refine ⟨by simp, ?_, by simp⟩
    simp only [canonical, IterState.mk.injEq]
    constructor
    · rw [List.drop_eq_nil_iff.mpr (by omega)]
    · rw [List.take_of_length_le hke, List.take_of_length_le (by omega)]
      rw [List.append_assoc]
      congr 1
      have h5 : k + 1 - inp.length = (k - inp.length) + 1 := by omega
      rw [h5, List.replicate_succ']
  · have hk' : inp.drop k = t :: ts := hk
    have hkl : k < inp.length := by
      by_contra hc
      push_neg at hc
      rw [List.drop_eq_nil_iff.mpr (by omega)] at hk'
      exact absurd hk' (by simp)
    have ht : inp[k]? = some t := by
      have h1 := congrArg (fun l => l[0]?) hk'
      simpa [List.getElem?_drop] using h1
    simp only [ht, Prod.mk.injEq]
    refine ⟨by simp, ?_, by simp⟩
    simp only [canonical, IterState.mk.injEq]
    constructor
    · rw [← List.tail_drop, hk']
      simp
    · have h2 : inp.take (k + 1) = inp.take k ++ [t] := by
        rw [List.take_succ]
        simp [ht]
      rw [h2]
      have h3 : k - inp.length = 0 := by omega
      have h4 : k + 1 - inp.length = 0 := by omega
      simp [h3, h4]

theorem readN_canonical {T : Type} (n : Nat) (inp : List T) (k : Nat) :
    readN n (canonical inp k) k =
      ((List.range' k n).map (fun j => inp[j]?), canonical inp (k + n), k + n) := by
  induction n generalizing k with
  | zero => simp [readN, List.range']
  | succ n ih =>
    simp only [readN, iterNext_canonical, List.range']
    rw [ih (k + 1)]
    simp only [Prod.mk.injEq, List.map_cons]
    refine ⟨by simp, ?_, by omega⟩
    have h7 : k + 1 + n = k + (n + 1) := by omega
    rw [h7]

/-- Bridge between the stream model and the parser-level abstraction:
reading `n` results from a fresh `copyableIterator` over `inp` yields
exactly the first `n` positional lookups into `inp`. -/
theorem readN_mkIter {T : Type} (inp : List T) (n : Nat) :
    (readN n (mkIter inp) 0).1 = (List.range n).map fun j => inp[j]? := by
  have h0 : mkIter inp = canonical inp 0 := by
    simp [mkIter, canonical]
  rw [h0, readN_canonical, List.range_eq_range']

/-! Claim theorems. -/

/-- C10: on the success path `run` evaluates the parser twice — once
against a state over a snapshot copy for validation, then again
against the caller's state for commit — and because every embedded
parser is a pure deterministic function of the input and position,
`run` is observationally equal (same result or failure, same final
cursor position) to `runSingle`, which evaluates the parser exactly
once and commits that single evaluation's position on success. -/
theorem run_double_eval_equiv (T A : Type) (p : Parser T A)
    (opts : Option (RunOptions T A)) (inp : List T) (pos : Nat) :
    run p opts inp pos = runSingle p opts inp pos := by
  rcases hp : p inp pos with ⟨r, q⟩
  cases r with
  | ok a =>
    rw [run_of_ok p opts hp]
    simp [runSingle, hp]
  | error e =>
    rw [run_of_error (e := e) p opts (by simp [hp])]
    simp [runSingle, hp]

/-- C3: recovery-strategy dispatch of `run`: on success the value is
returned and the strategy is ignored; on failure, no strategy
re-raises the messages unchanged, `bindError` applies the handler to
the message list and executes the resulting parser against the
original pre-attempt state, `withDefault` suppresses the failure and
returns the configured value, and otherwise the re-raised list is
`replaceErrors` when present (else the original messages) with any
`withErrors`/`withError` messages appended. -/
theorem run_strategy_dispatch (T A : Type) (p : Parser T A)
    (inp : List T) (pos : Nat) :
    (∀ (opts : Option (RunOptions T A)) (a : A) (pos' : Nat),
       p inp pos = (.ok a, pos') → run p opts inp pos = (.ok a, pos')) ∧
    (∀ (e : List String) (pos' : Nat),
       p inp pos = (.error e, pos') → run p none inp pos = (.error e, pos)) ∧
    (∀ (e : List String) (pos' : Nat) (f : List String → Parser T A),
       p inp pos = (.error e, pos') →
       run p (optsBindError f) inp pos = f e inp pos) ∧
    (∀ (e : List String) (pos' : Nat) (a : A),
       p inp pos = (.error e, pos') →
       run p (optsWithDefault a) inp pos = (.ok a, pos)) ∧
    (∀ (e : List String) (pos' : Nat) (o : RunOptions T A),
       p inp pos = (.error e, pos') → o.bindError = none → o.withDefault = none →
       run p (some o) inp pos =
         (.error ((o.replaceErrors.getD e ++ o.withErrors.getD []) ++
           (o.withError.elim [] fun w => [w])), pos)) := by
  refine ⟨?_, ?_, ?_, ?_, ?_⟩
  · intro opts a pos' h
    exact run_of_ok p opts h
  · intro e pos' h
    exact run_none_of_error (e := e) p (by simp [h])
  · intro e pos' f h
    rw [run_of_error (e := e) p _ (by simp [h])]
    rfl
  · intro e pos' a h
    rw [run_of_error (e := e) p _ (by simp [h])]
    rfl
  · intro e pos' o h hb hd
    rw [run_of_error (e := e) p (some o) (by simp [h])]
    rcases o with ⟨b, d, r, es, w⟩
    simp only at hb hd
    subst hb
    subst hd
    rcases r with _ | r <;> rcases es with _ | es <;> rcases w with _ | w <;>
      simp [handleFailure, Option.getD, Option.elim]

/-- C4: choice ordering and commit: when the first alternative
succeeds, `choice [p1, p2]` returns its result — for every `p2`, so
the second alternative can never influence the outcome; when the
first fails and the second succeeds, `choice` returns the second's
result obtained from the original unadvanced position, the committed
position reflecting only the second alternative's consumption. -/
theorem choice_ordering_commit (T A : Type) (p1 p2 : Parser T A)
    (inp : List T) (pos : Nat) :
    (∀ (a : A) (pos' : Nat), p1 inp pos = (.ok a, pos') →
       choice [p1, p2] inp pos = (.ok a, pos')) ∧
    (∀ (e : List String) (a : A) (pos2 : Nat),
       (p1 inp pos).1 = .error e → p2 inp pos = (.ok a, pos2) →
       choice [p1, p2] inp pos = (.ok a, pos2)) := by
  constructor
  · intro a pos' h
    exact choice_cons_of_ok p1 [p2] h
  · intro e a pos2 h1 h2
    rw [choice_cons_of_error p1 [p2] h1]
    exact run_of_ok _ _ (choice_cons_of_ok p2 [] h2)

/-- C8: chain fail-fast atomicity: `chain` runs the parsers left to
right against the same evolving state, consing the results in order;
`chain [p1, p2]` succeeds with both results when both succeed,
fails with exactly the first failing parser's failure — at the
position reached at the point of that first failure — and fails only
when `p1` fails or `p1` succeeds and `p2` fails. -/
theorem chain_fail_fast (T A : Type) (p1 p2 : Parser T A)
    (ps : List (Parser T A)) (inp : List T) (pos : Nat) :
    (∀ (p : Parser T A) (a : A) (pos1 : Nat) (as : List A) (pos2 : Nat),
       run p none inp pos = (.ok a, pos1) → chain ps inp pos1 = (.ok as, pos2) →
       chain (p :: ps) inp pos = (.ok (a :: as), pos2)) ∧
    (∀ (e : List String), (p1 inp pos).1 = .error e →
       chain [p1, p2] inp pos = (.error e, pos)) ∧
    (∀ (a : A) (pos1 : Nat) (e : List String),
       p1 inp pos = (.ok a, pos1) → (p2 inp pos1).1 = .error e →
       chain [p1, p2] inp pos = (.error e, pos1)) ∧
    (∀ (a1 : A) (pos1 : Nat) (a2 : A) (pos2 : Nat),
       p1 inp pos = (.ok a1, pos1) → p2 inp pos1 = (.ok a2, pos2) →
       chain [p1, p2] inp pos = (.ok [a1, a2], pos2)) ∧
    (∀ (e : List String) (q : Nat), chain [p1, p2] inp pos = (.error e, q) →
       (∃ e1, (p1 inp pos).1 = .error e1) ∨
       (∃ a pos1 e2, p1 inp pos = (.ok a, pos1) ∧ (p2 inp pos1).1 = .error e2)) := by
  refine ⟨?_, ?_, ?_, ?_, ?_⟩
  · intro p a pos1 as pos2 h h2
    exact chain_cons_of_ok p ps h h2
  · intro e h
    exact chain_cons_of_error p1 [p2] h
  · intro a pos1 e h h2
    exact chain_cons_of_rest_error p1 [p2] (run_of_ok p1 none h)
      (chain_cons_of_error p2 [] h2)
  · intro a1 pos1 a2 pos2 h h2
    exact chain_cons_of_ok p1 [p2] (run_of_ok p1 none h)
      (chain_cons_of_ok p2 [] (run_of_ok p2 none h2) (chain_nil inp pos2))
  · intro e q h
    rcases hp1 : p1 inp pos with ⟨r1, q1⟩
    cases r1 with
    | error e1 => exact Or.inl ⟨e1, by simp [hp1]⟩
    | ok a =>
      rcases hp2 : p2 inp q1 with ⟨r2, q2⟩
      cases r2 with
      | error e2 => exact Or.inr ⟨a, q1, e2, by simp [hp1], by simp [hp2]⟩
      | ok a2 =>
        rw [chain_cons_of_ok p1 [p2] (run_of_ok p1 none hp1)
          (chain_cons_of_ok p2 [] (run_of_ok p2 none hp2) (chain_nil inp q2))] at h
        simp at h

/-- C1: non-consumption on failure: a parser failure surfaced through
the combinators leaves the caller's read position at its pre-attempt
value: a failing parser under `option` yields `[]` at the original
position; the terminating failed application inside `many` leaves the
position where the last success ended (the original position when the
first application already fails, the position after the sole success
when the second fails); a failed head alternative of `choice` hands
the remaining alternatives the original unadvanced position; and a
failing `choice` as a whole reports the original position. -/
theorem nonconsumption_on_failure (T A : Type) (p : Parser T A)
    (inp : List T) (pos : Nat) :
    (∀ (e : List String), (p inp pos).1 = .error e →
       option p inp pos = (.ok [], pos)) ∧
    (∀ (e : List String) (n : Nat), (p inp pos).1 = .error e →
       many n p inp pos = (.ok [], pos)) ∧
    (∀ (n : Nat) (a : A) (pos1 : Nat) (e : List String),
       p inp pos = (.ok a, pos1) → (p inp pos1).1 = .error e →
       many (n + 1) p inp pos = (.ok [a], pos1)) ∧
    (∀ (e : List String) (rest : List (Parser T A)), (p inp pos).1 = .error e →
       choice (p :: rest) inp pos = run (choice rest) (optsWithErrors e) inp pos) ∧
    (∀ (ps : List (Parser T A)) (e : List String) (q : Nat),
       choice ps inp pos = (.error e, q) → q = pos) := by
  refine ⟨?_, ?_, ?_, ?_, ?_⟩
  · intro e h
    exact option_of_error p h
  · intro e n h
    exact many_of_error p n h
  · intro n a pos1 e h h2
    exact many_of_ok p n h (many_of_error p n h2)
  · intro e rest h
    exact choice_cons_of_error p rest h
  · intro ps e q h
    exact choice_error_pos ps h

/-- C5 counterexample: the failure list propagated out of an
exhausted `choice` is not the concatenation of the alternatives'
message lists in the order the alternatives were given — on input
`"C"`, `choice [accept 'A', accept 'B']` raises the second
alternative's messages first. -/
theorem choice_aggregation_counterexample :
    choice [accept 'A', accept 'B'] ['C'] 0 ≠
      (.error (["Found C", "Expected A"] ++ ["Found C", "Expected B"]), 0) ∧
    choice [accept 'A', accept 'B'] ['C'] 0 =
      (.error ["Found C", "Expected B", "Found C", "Expected A"], 0) := by
  constructor
  · decide
  · decide

/-- C5 (amended): when every alternative fails, `choice` fails at the
original position and the propagated list is the concatenation of all
the alternatives' message lists in reverse order of the alternatives
(each failed alternative's messages are threaded as `withErrors`
context to the next attempt, and `withErrors` appends the earlier
context after the newer failure); zero alternatives fail immediately
with the empty list. -/
theorem choice_failure_aggregation (T A : Type)
    (pes : List (Parser T A × List String)) (inp : List T) (pos : Nat)
    (h : ∀ pe ∈ pes, (pe.1 inp pos).1 = Except.error pe.2) :
    choice (pes.map Prod.fst) inp pos =
      (.error (pes.map Prod.snd).reverse.flatten, pos) := by
  induction pes with
  | nil => simpa using choice_nil inp pos
  | cons pe pes ih =>
    have h1 : (pe.1 inp pos).1 = .error pe.2 := h pe (by simp)
    have h2 := ih fun x hx => h x (by simp [hx])
    simp only [List.map_cons]
    rw [choice_cons_of_error pe.1 _ h1]
    rw [run_of_error (e := (pes.map Prod.snd).reverse.flatten) _ _ (by simp [h2])]
    rw [handleFailure_withErrors]
    simp

/-- C6: repetition laws: `many` (and `option`) always succeed, never
propagating the terminating failure; `many` of a failing parser is
`[]` at the original position; at one more unit of fuel, `many p`
is `option p` concatenated with the recursive `many p`; `repeat p`
is the singleton of the first result concatenated with `many p`, and
`repeat` fails exactly when the first application of `p` fails —
with exactly that first failure. -/
theorem repetition_laws (T A : Type) (p : Parser T A) (inp : List T) (pos : Nat) :
    (∀ (n : Nat), ∃ l q, many n p inp pos = (.ok l, q)) ∧
    (∀ (e : List String) (n : Nat), (p inp pos).1 = .error e →
       many n p inp pos = (.ok [], pos)) ∧
    (∀ (n : Nat) (la : List A) (pos1 : Nat) (lr : List A) (pos2 : Nat),
       option p inp pos = (.ok la, pos1) → many n p inp pos1 = (.ok lr, pos2) →
       many (n + 1) p inp pos = (.ok (la ++ lr), pos2)) ∧
    (∀ (n : Nat) (a : A) (pos1 : Nat) (l : List A) (pos2 : Nat),
       p inp pos = (.ok a, pos1) → many n p inp pos1 = (.ok l, pos2) →
       repeatP (n + 1) p inp pos = (.ok ([a] ++ l), pos2)) ∧
    (∀ (n : Nat) (e : List String), (p inp pos).1 = .error e →
       repeatP (n + 1) p inp pos = (.error e, pos)) ∧
    (∀ (n : Nat) (e : List String) (q : Nat),
       repeatP (n + 1) p inp pos = (.error e, q) →
       ∃ e2, (p inp pos).1 = .error e2) := by
  refine ⟨?_, ?_, ?_, ?_, ?_, ?_⟩
  · intro n
    exact many_isOk n p inp pos
  · intro e n h
    exact many_of_error p n h
  · intro n la pos1 lr pos2 h1 h2
    rcases hp : p inp pos with ⟨r, q0⟩
    cases r with
    | ok a =>
      rw [option_of_ok p hp] at h1
      simp only [Prod.mk.injEq, Except.ok.injEq] at h1
      obtain ⟨rfl, rfl⟩ := h1
      simpa using many_of_ok p n hp h2
    | error e =>
      have he : (p inp pos).1 = .error e := by simp [hp]
      rw [option_of_error p he] at h1
      simp only [Prod.mk.injEq, Except.ok.injEq] at h1
      obtain ⟨rfl, rfl⟩ := h1
      rw [many_of_error p n he] at h2
      simp only [Prod.mk.injEq, Except.ok.injEq] at h2
      obtain ⟨rfl, rfl⟩ := h2
      simpa using many_of_error p (n + 1) he
  · intro n a pos1 l pos2 h h2
    simpa using repeatP_of_ok p n h h2
  · intro n e h
    exact repeatP_of_error p n h
  · intro n e q h
    rcases hp : p inp pos with ⟨r, q0⟩
    cases r with
    | error e2 => exact ⟨e2, by simp [hp]⟩
    | ok a =>
      obtain ⟨l, q2, hm⟩ := many_isOk n p inp q0
      rw [repeatP_of_ok p n hp hm] at h
      simp at h

/-- C7: primitive recognition contract: `recognize` pulls one token
(the cursor advancing by exactly one), failing with the end-of-input
message when the input is exhausted and with the message naming the
found token when the predicate rejects it; `accept` behaves as
`recognize` with an equality predicate and appends
`Expected <token>` to every failure list (its failures surfacing at
the pre-attempt position, through `run`); chaining accepts of
`'A','B','B','A'` on input `"ABXA"` fails with the list containing
`Found X` and `Expected B`. -/
theorem recognize_accept_contract (T : Type) [ToString T] [DecidableEq T]
    (pred : T → Bool) (tok : T) (inp : List T) (pos : Nat) :
    (inp[pos]? = none →
       recognize pred inp pos =
         (.error ["Expected token, but reached end of input"], pos + 1)) ∧
    (∀ (t : T), inp[pos]? = some t → pred t = false →
       recognize pred inp pos = (.error ["Found " ++ toString t], pos + 1)) ∧
    (∀ (t : T), inp[pos]? = some t → pred t = true →
       recognize pred inp pos = (.ok t, pos + 1)) ∧
    (inp[pos]? = none →
       accept tok inp pos =
         (.error ["Expected token, but reached end of input",
           "Expected " ++ toString tok], pos)) ∧
    (∀ (t : T), inp[pos]? = some t → t ≠ tok →
       accept tok inp pos =
         (.error ["Found " ++ toString t, "Expected " ++ toString tok], pos)) ∧
    (inp[pos]? = some tok → accept tok inp pos = (.ok tok, pos + 1)) ∧
    (chain [accept 'A', accept 'B', accept 'B', accept 'A'] ['A', 'B', 'X', 'A'] 0 =
       (.error ["Found X", "Expected B"], 2)) := by
  refine ⟨?_, ?_, ?_, ?_, ?_, ?_, by decide⟩
  · intro h
    simp [recognize, h]
  · intro t h hf
    simp [recognize, h, hf]
  · intro t h ht
    simp [recognize, h, ht]
  · intro h
    unfold accept
    rw [run_of_error (e := ["Expected token, but reached end of input"]) _ _
      (by simp [recognize, h])]
    rfl
  · intro t h hne
    unfold accept
    rw [run_of_error (e := ["Found " ++ toString t]) _ _
      (by simp [recognize, h, hne])]
    rfl
  · intro h
    unfold accept
    exact run_of_ok _ _ (by simp [recognize, h])

/-- C2: snapshot referential transparency: `copy` yields a cursor at
the current position of the cursor it was copied from, and reading
`k` results, copying, then reading `k` more results through the copy
observes exactly what reading `2k` results directly observes — with
the same final shared state and final index. -/
theorem snapshot_referential_transparency (T : Type) (k : Nat)
    (st : IterState T) (i : Nat) :
    copyCursor i = i ∧
    readN (k + k) st i =
      ((readN k st i).1 ++
         (readN k (readN k st i).2.1 (copyCursor (readN k st i).2.2)).1,
       (readN k (readN k st i).2.1 (copyCursor (readN k st i).2.2)).2) := by
  refine ⟨rfl, ?_⟩
  simpa [copyCursor] using readN_add k k st i

/-- C9: across every sequence of `next`/`copy` operations the shared
buffer only grows — the old buffer stays an unchanged prefix — and
two snapshots holding the same read index observe identical sequences
of future results. -/
theorem buffer_append_only (T : Type) (s : Sys T) (ops : List StreamOp) :
    (∃ suffix, (applyOps s ops).st.buffer = s.st.buffer ++ suffix) ∧
    (∀ (c1 c2 n i : Nat), s.cursors[c1]? = some i → s.cursors[c2]? = some i →
       observe n s c1 = observe n s c2) := by
  refine ⟨applyOps_buffer ops s, ?_⟩
  intro c1 c2 n i h1 h2
  rw [observe_eq_readN n s c1 i h1, observe_eq_readN n s c2 i h2]

/-! Concrete witnesses discharging the hypotheses of the claim
theorems at explicit inputs. -/

/-- Witness for C1 at concrete inputs over `Char`. -/
theorem nonconsumption_on_failure_witness :
    option (accept 'B') ['A'] 0 = (.ok [], 0) ∧
    many 3 (accept 'B') ['A'] 0 = (.ok [], 0) ∧
    many 2 (accept 'B') ['B', 'A'] 0 = (.ok ['B'], 1) ∧
    choice [accept 'B', accept 'A'] ['A'] 0 =
      run (choice [accept 'A']) (optsWithErrors ["Found A", "Expected B"]) ['A'] 0 ∧
    (0 : Nat) = 0 := by
  refine ⟨?_, ?_, ?_, ?_, ?_⟩
  · exact (nonconsumption_on_failure Char Char (accept 'B') ['A'] 0).1
      ["Found A", "Expected B"] (by decide)
  · exact (nonconsumption_on_failure Char Char (accept 'B') ['A'] 0).2.1
      ["Found A", "Expected B"] 3 (by decide)
  · exact (nonconsumption_on_failure Char Char (accept 'B') ['B', 'A'] 0).2.2.1
      1 'B' 1 ["Found A", "Expected B"] (by decide) (by decide)
  · exact (nonconsumption_on_failure Char Char (accept 'B') ['A'] 0).2.2.2.1
      ["Found A", "Expected B"] [accept 'A'] (by decide)
  · exact (nonconsumption_on_failure Char Char (accept 'B') ['A'] 0).2.2.2.2
      [accept 'B'] ["Found A", "Expected B"] 0 (by decide)

/-- Witness for C3 at concrete inputs over `Char`. -/
theorem run_strategy_dispatch_witness :
    run (accept 'A') (optsWithDefault 'Z') ['A'] 0 = (.ok 'A', 1) ∧
    run (accept 'A') none ['B'] 0 = (.error ["Found B", "Expected A"], 0) ∧
    run (accept 'A') (optsBindError fun _ => accept 'B') ['B'] 0 =
      accept 'B' ['B'] 0 ∧
    run (accept 'A') (optsWithDefault 'Z') ['B'] 0 = (.ok 'Z', 0) ∧
    run (accept 'A')
      (some ⟨none, none, some ["oops"], some ["ctx"], some "more"⟩) ['B'] 0 =
      (.error ["oops", "ctx", "more"], 0) := by
  refine ⟨?_, ?_, ?_, ?_, ?_⟩
  · exact (run_strategy_dispatch Char Char (accept 'A') ['A'] 0).1
      (optsWithDefault 'Z') 'A' 1 (by decide)
  · exact (run_strategy_dispatch Char Char (accept 'A') ['B'] 0).2.1
      ["Found B", "Expected A"] 0 (by decide)
  · exact (run_strategy_dispatch Char Char (accept 'A') ['B'] 0).2.2.1
      ["Found B", "Expected A"] 0 (fun _ => accept 'B') (by decide)
  · exact (run_strategy_dispatch Char Char (accept 'A') ['B'] 0).2.2.2.1
      ["Found B", "Expected A"] 0 'Z' (by decide)
  · exact (run_strategy_dispatch Char Char (accept 'A') ['B'] 0).2.2.2.2
      ["Found B", "Expected A"] 0
      ⟨none, none, some ["oops"], some ["ctx"], some "more"⟩ (by decide) rfl rfl

/-- Witness for C4 at concrete inputs over `Char`. -/
theorem choice_ordering_commit_witness :
    choice [accept 'A', accept 'B'] ['A'] 0 = (.ok 'A', 1) ∧
    choice [accept 'B', accept 'A'] ['A'] 0 = (.ok 'A', 1) := by
  constructor
  · exact (choice_ordering_commit Char Char (accept 'A') (accept 'B') ['A'] 0).1
      'A' 1 (by decide)
  · exact (choice_ordering_commit Char Char (accept 'B') (accept 'A') ['A'] 0).2
      ["Found A", "Expected B"] 'A' 1 (by decide) (by decide)

/-- Witness for the amended C5 at concrete inputs over `Char`. -/
theorem choice_failure_aggregation_witness :
    choice [accept 'A', accept 'B'] ['C'] 0 =
      (.error ["Found C", "Expected B", "Found C", "Expected A"], 0) := by
  have hyp : ∀ pe ∈ ([(accept 'A', ["Found C", "Expected A"]),
      (accept 'B', ["Found C", "Expected B"])] :
        List (Parser Char Char × List String)),
      (pe.1 ['C'] 0).1 = Except.error pe.2 := by
    intro pe hpe
    rcases List.mem_cons.mp hpe with h1 | h1
    · subst h1
      decide
    · rcases List.mem_cons.mp h1 with h2 | h2
      · subst h2
        decide
      · simp at h2
  simpa using choice_failure_aggregation Char Char _ ['C'] 0 hyp

/-- Witness for C6 at concrete inputs over `Char`. -/
theorem repetition_laws_witness :
    (∃ l q, many 2 (accept 'B') ['B', 'A'] 0 = (.ok l, q)) ∧
    many 2 (accept 'B') ['A'] 0 = (.ok [], 0) ∧
    many 3 (accept 'B') ['B', 'A'] 0 = (.ok (['B'] ++ []), 1) ∧
    repeatP 3 (accept 'B') ['B', 'A'] 0 = (.ok (['B'] ++ []), 1) ∧
    repeatP 3 (accept 'B') ['A'] 0 = (.error ["Found A", "Expected B"], 0) ∧
    (∃ e2, ((accept 'B') ['A'] 0).1 = Except.error e2) := by
  refine ⟨?_, ?_, ?_, ?_, ?_, ?_⟩
  · exact (repetition_laws Char Char (accept 'B') ['B', 'A'] 0).1 2
  · exact (repetition_laws Char Char (accept 'B') ['A'] 0).2.1
      ["Found A", "Expected B"] 2 (by decide)
  · exact (repetition_laws Char Char (accept 'B') ['B', 'A'] 0).2.2.1
      2 ['B'] 1 [] 1 (by decide) (by decide)
  · exact (repetition_laws Char Char (accept 'B') ['B', 'A'] 0).2.2.2.1
      2 'B' 1 [] 1 (by decide) (by decide)
  · exact (repetition_laws Char Char (accept 'B') ['A'] 0).2.2.2.2.1
      2 ["Found A", "Expected B"] (by decide)
  · exact (repetition_laws Char Char (accept 'B') ['A'] 0).2.2.2.2.2
      2 ["Found A", "Expected B"] 0 (by decide)

/-- Witness for C7 at concrete inputs over `Char`. -/
theorem recognize_accept_contract_witness :
    recognize (fun x => decide (x = 'B')) ['A'] 1 =
      (.error ["Expected token, but reached end of input"], 2) ∧
    recognize (fun x => decide (x = 'B')) ['A'] 0 = (.error ["Found A"], 1) ∧
    recognize (fun x => decide (x = 'B')) ['B'] 0 = (.ok 'B', 1) ∧
    accept 'B' ([] : List Char) 0 =
      (.error ["Expected token, but reached end of input", "Expected B"], 0) ∧
    accept 'B' ['X'] 0 = (.error ["Found X", "Expected B"], 0) ∧
    accept 'B' ['B'] 0 = (.ok 'B', 1) ∧
    chain [accept 'A', accept 'B', accept 'B', accept 'A'] ['A', 'B', 'X', 'A'] 0 =
      (.error ["Found X", "Expected B"], 2) := by
  refine ⟨?_, ?_, ?_, ?_, ?_, ?_, ?_⟩
  · exact (recognize_accept_contract Char (fun x => decide (x = 'B'))
      'B' ['A'] 1).1 (by decide)
  · exact (recognize_accept_contract Char (fun x => decide (x = 'B'))
      'B' ['A'] 0).2.1 'A' (by decide) (by decide)
  · exact (recognize_accept_contract Char (fun x => decide (x = 'B'))
      'B' ['B'] 0).2.2.1 'B' (by decide) (by decide)
  · exact (recognize_accept_contract Char (fun x => decide (x = 'B'))
      'B' [] 0).2.2.2.1 (by decide)
  · exact (recognize_accept_contract Char (fun x => decide (x = 'B'))
      'B' ['X'] 0).2.2.2.2.1 'X' (by decide) (by decide)
  · exact (recognize_accept_contract Char (fun x => decide (x = 'B'))
      'B' ['B'] 0).2.2.2.2.2.1 (by decide)
  · exact (recognize_accept_contract Char (fun x => decide (x = 'B'))
      'B' ['B'] 0).2.2.2.2.2.2

/-- Witness for C8 at concrete inputs over `Char`. -/
theorem chain_fail_fast_witness :
    chain [accept 'A'] ['A'] 0 = (.ok ['A'], 1) ∧
    chain [accept 'A', accept 'B'] ['X', 'B'] 0 =
      (.error ["Found X", "Expected A"], 0) ∧
    chain [accept 'A', accept 'B'] ['A', 'X'] 0 =
      (.error ["Found X", "Expected B"], 1) ∧
    chain [accept 'A', accept 'B'] ['A', 'B'] 0 = (.ok ['A', 'B'], 2) ∧
    ((∃ e1, ((accept 'A') ['X', 'B'] 0).1 = Except.error e1) ∨
      (∃ a pos1 e2, (accept 'A') ['X', 'B'] 0 = (Except.ok a, pos1) ∧
        ((accept 'B') ['X', 'B'] pos1).1 = Except.error e2)) := by
  refine ⟨?_, ?_, ?_, ?_, ?_⟩
  · exact (chain_fail_fast Char Char (accept 'A') (accept 'B') [] ['A'] 0).1
      (accept 'A') 'A' 1 [] 1 (by decide) (by decide)
  · exact (chain_fail_fast Char Char (accept 'A') (accept 'B') [] ['X', 'B'] 0).2.1
      ["Found X", "Expected A"] (by decide)
  · exact (chain_fail_fast Char Char (accept 'A') (accept 'B') [] ['A', 'X'] 0).2.2.1
      'A' 1 ["Found X", "Expected B"] (by decide) (by decide)
  · exact (chain_fail_fast Char Char (accept 'A') (accept 'B') [] ['A', 'B'] 0).2.2.2.1
      'A' 1 'B' 2 (by decide) (by decide)
  · exact (chain_fail_fast Char Char (accept 'A') (accept 'B') [] ['X', 'B'] 0).2.2.2.2
      ["Found X", "Expected A"] 0 (by decide)

/-- Witness for C9 at a concrete system over `Char`. -/
theorem buffer_append_only_witness :
    (∃ suffix,
      (applyOps (⟨⟨['a', 'b'], []⟩, [0, 0]⟩ : Sys Char)
        [.next 0, .copy 0, .next 1]).st.buffer =
        ([] : List (Option Char)) ++ suffix) ∧
    observe 3 (⟨⟨['a', 'b'], []⟩, [0, 0]⟩ : Sys Char) 0 =
      observe 3 (⟨⟨['a', 'b'], []⟩, [0, 0]⟩ : Sys Char) 1 := by
  constructor
  · exact (buffer_append_only Char ⟨⟨['a', 'b'], []⟩, [0, 0]⟩
      [.next 0, .copy 0, .next 1]).1
  · exact (buffer_append_only Char ⟨⟨['a', 'b'], []⟩, [0, 0]⟩ []).2 0 1 3 0
      (by decide) (by decide)

end PC
